import Mathlib

/-!
Verification development for the registry-cleaner tool (`src/main.go`).

The repository ships the current `main.go` together with an earlier variant of
the same program (appended after a separator in the file).  We shallowly embed
the functions the claims are about:

* `getCreated`        — the manifest/config resolver (both variants share the
                        same resolution logic; the current variant is embedded,
                        lines 98–139; the early variant, lines 389–430, differs
                        only in the wrapping of the manifest-fetch error).
* `processTags`/`getBlobInfos` — per-repository tag enumeration (lines 141–199).
* `processBlob`/`processBlobs` — the per-record retention/deletion loop of the
                        current variant's `main` (lines 259–290).
* `processBlobV2`/`processBlobsV2` — the per-record loop of the early variant's
                        `main` (lines 505–518), which has a report-only branch.
* `getAllRepos`       — the paginated catalog walker (lines 52–72).

External collaborators (the docker registry client, `encoding/json`,
`time.Parse`) are modelled as oracle functions collected in `Env`: the code
under verification never inspects their implementation, only their results.
Go's runtime panics (unchecked type assertions, out-of-range indexing) are a
distinct outcome `GoResult.panicked`, separate from errors returned to the
caller (`GoResult.err`).
-/

/-- Outcome of running a piece of Go code: a returned value, a returned
`error`, or a runtime panic that aborts the whole process. -/
inductive GoResult (α : Type) where
  | ok (a : α)
  | err (e : String)
  | panicked (msg : String)
deriving DecidableEq, Repr

/-- Generic JSON value, the shape `json.Unmarshal` produces into
`map[string]interface{}` / `interface{}`.  `jnull` plays the role of Go's
nil interface value (a missing key or an explicit JSON null). -/
inductive JVal where
  | jnull
  | jbool (b : Bool)
  | jnum (n : Int)
  | jstr (s : String)
  | jarr (elems : List JVal)
  | jobj (fields : List (String × JVal))

/-- Go map lookup `m[k]` on an unmarshalled object: a missing key yields the
nil interface value, i.e. `jnull`. -/
def jlookup (fields : List (String × JVal)) (k : String) : JVal :=
  match fields.find? (fun p => p.1 == k) with
  | some p => p.2
  | none => JVal.jnull

/-- Result of `r.manifests.Get` followed by `mf.Payload()` (main.go lines
100–107): the fetch can fail, the payload extraction can fail, or we obtain
the raw payload bytes. -/
inductive ManifestFetch where
  | getErr (e : String)
  | payloadErr (e : String)
  | payload (pl : String)

/-- Tag descriptor returned by `r.tags.Get` (digest and media type). -/
structure Descriptor where
  digest : String
  mediaType : String
deriving DecidableEq, Repr

/-- Oracles for the external collaborators of one repository pass.

* `mGet d`    models `r.manifests.Get(ctx, d)` plus `mf.Payload()`.
* `blobGet d` models `r.blobs.Get(ctx, d)` returning raw bytes.
* `decode s`  models `json.Unmarshal([]byte(s), &m)` into a
  `map[string]interface{}`: `none` when unmarshalling fails (in which case
  the Go code leaves the freshly made map empty), `some fields` otherwise.
* `parseT s`  models `time.Parse(time.RFC3339Nano, s)`; the timestamp is an
  abstract instant (an integer).
* `tagsAll`   models `r.tags.All(ctx)`.
* `tagsGet t` models `r.tags.Get(ctx, t)`.
* `delete d`  models `rep.manifests.Delete(rep.ctx, d)`: `none` on success,
  `some e` when the call returns error `e`. -/
structure Env where
  mGet : String → ManifestFetch
  blobGet : String → Except String String
  decode : String → Option (List (String × JVal))
  parseT : String → Except String Int
  tagsAll : Except String (List String)
  tagsGet : String → Except String Descriptor
  delete : String → Option String

/-- `return &tm, e` after `time.Parse`: the caller only ever looks at the
timestamp when the error is nil. -/
def exceptToResult : Except String Int → GoResult Int
  | .ok t => .ok t
  | .error e => .err e

/-- Shallow embedding of `(*repository).getCreated` (main.go lines 98–139).

Every unchecked Go type assertion (`hist.([]interface{})`,
`h.(map[string]interface{})`, `v1compat.(string)`,
`v1comp["created"].(string)`, `plmap["config"].(map[string]interface{})`,
`cfg["digest"].(string)`, the final `plmap["created"].(string)`) and the
indexing `[0]` of a possibly empty slice become `GoResult.panicked`, because
in Go they abort the process.  Both `json.Unmarshal` calls whose error the
source discards are embedded as `(env.decode _).getD []`: on failure the map
stays empty. -/
def getCreated (env : Env) (dig : String) : GoResult Int :=
  match env.mGet dig with
  | .getErr e => .err ("cannot query manifest: " ++ e)
  | .payloadErr e => .err e
  | .payload pl =>
    let plmap := (env.decode pl).getD []
    match jlookup plmap "config" with
    | .jnull =>
      -- no config, try the first history object and use v1compatibility
      match jlookup plmap "history" with
      | .jnull => .err ("no config and history found for digest: " ++ dig)
      | .jarr [] => .panicked "index out of range"
      | .jarr (h :: _) =>
        match h with
        | .jobj history =>
          match jlookup history "v1Compatibility" with
          | .jnull => .err "no v1Compatibility node in history object"
          | .jstr s =>
            let v1comp := (env.decode s).getD []
            match jlookup v1comp "created" with
            | .jstr cs => exceptToResult (env.parseT cs)
            | _ => .panicked "interface conversion"
          | _ => .panicked "interface conversion"
        | _ => .panicked "interface conversion"
      | _ => .panicked "interface conversion"
    | .jobj cfg =>
      match jlookup cfg "digest" with
      | .jstr ds =>
        match env.blobGet ds with
        | .error e => .err e
        | .ok bl =>
          let bm := (env.decode bl).getD []
          match jlookup bm "created" with
          | .jstr cs => exceptToResult (env.parseT cs)
          | _ => .panicked "interface conversion"
      | _ => .panicked "interface conversion"
    | _ => .panicked "interface conversion"

/-- A resolved tag record (`blobinfo` in main.go). -/
structure blobinfo where
  repo : String
  tag : String
  digest : String
  created : Int
deriving DecidableEq, Repr

/-- Observable side effects of one repository pass: log lines and the
delete-by-digest network call.  `deleteCall` additionally records which
record (repository and tag) the deleted digest came from, so provenance can
be stated; the Go call itself passes only the digest. -/
inductive Effect where
  | logProcessingTag (repo tag : String)
  | logTagDescErr (tag e : String)
  | logKeep (repo tag : String)
  | logCreatedErr (repo tag e : String)
  | logAddTag (repo tag dig : String)
  | logIgnoredByRemove (repname : String) (created : Int)
  | logMatched (repname : String) (created : Int)
  | logDry (repo dig : String)
  | deleteCall (repo tag dig : String)
  | logDeleteErr (dig e : String)
  | printFound (repo tag dig : String) (created : Int)
  | printDryV2 (repo tag dig : String) (created : Int)
  | printDelV2 (repo tag dig : String) (created : Int)
deriving DecidableEq, Repr

/-- `keepRepo != nil && keepRepo.FindString(repname) != ""` (line 165):
`keepFind` is `some f` when the keep flag was set, `f` being
`keepRepo.FindString`. -/
def keepMatches (keepFind : Option (String → String)) (repname : String) : Bool :=
  match keepFind with
  | none => false
  | some f => f repname != ""

/-- `removeRepo != nil && removeRepo.FindString(repname) == ""` (line 263). -/
def removeMisses (removeFind : Option (String → String)) (repname : String) : Bool :=
  match removeFind with
  | none => false
  | some f => f repname == ""

/-- Map over the success value of a `GoResult`. -/
def GoResult.mapOk (f : α → β) : GoResult α → GoResult β
  | .ok a => .ok (f a)
  | .err e => .err e
  | .panicked m => .panicked m

/-- The per-tag loop of `(*repository).getBlobInfos` (main.go lines 149–196):
for each tag, fetch the descriptor (log + skip on failure), skip tags matched
by the keep pattern, resolve the creation time via `getCreated` (log + skip
on a returned error, but a panic aborts the process), and otherwise record
the blobinfo. -/
def processTags (env : Env) (keepFind : Option (String → String)) (reponame : String) :
    List String → GoResult (List blobinfo × List Effect)
  | [] => .ok ([], [])
  | t :: rest =>
    match env.tagsGet t with
    | .error e =>
      GoResult.mapOk
        (fun p => (p.1, Effect.logProcessingTag reponame t :: Effect.logTagDescErr t e :: p.2))
        (processTags env keepFind reponame rest)
    | .ok tg =>
      if keepMatches keepFind (reponame ++ ":" ++ t) then
        GoResult.mapOk
          (fun p => (p.1, Effect.logProcessingTag reponame t :: Effect.logKeep reponame t :: p.2))
          (processTags env keepFind reponame rest)
      else
        match getCreated env tg.digest with
        | .panicked m => .panicked m
        | .err e =>
          GoResult.mapOk
            (fun p => (p.1, Effect.logProcessingTag reponame t :: Effect.logCreatedErr reponame t e :: p.2))
            (processTags env keepFind reponame rest)
        | .ok tm =>
          GoResult.mapOk
            (fun p => (⟨reponame, t, tg.digest, tm⟩ :: p.1,
              Effect.logProcessingTag reponame t :: Effect.logAddTag reponame t tg.digest :: p.2))
            (processTags env keepFind reponame rest)

/-- `(*repository).getBlobInfos` (main.go lines 141–199): list all tags
(returning the error on failure) and run the per-tag loop. -/
def getBlobInfos (env : Env) (keepFind : Option (String → String)) (reponame : String) :
    GoResult (List blobinfo × List Effect) :=
  match env.tagsAll with
  | .error e => .err e
  | .ok tags => processTags env keepFind reponame tags

/-- Body of the per-record retention loop of the current variant's `main`
(main.go lines 259–290), for one resolved record `b`.  `oldest` is the
cutoff instant computed by `main`; `b.created.Before(oldest)` is the strict
comparison `b.created < oldest`. -/
def processBlob (env : Env) (numDays oldest : Int) (dry : Bool)
    (removeFind : Option (String → String)) (reponame : String) (b : blobinfo) : List Effect :=
  if 0 ≤ numDays then
    if b.created < oldest then
      let repname := b.repo ++ ":" ++ b.tag
      if removeMisses removeFind repname then
        [Effect.logIgnoredByRemove repname b.created]
      else
        Effect.logMatched repname b.created ::
          (if dry then [Effect.logDry reponame b.digest]
           else
             Effect.deleteCall b.repo b.tag b.digest ::
               (match env.delete b.digest with
                | some e => [Effect.logDeleteErr b.digest e]
                | none => []))
    else []
  else []

/-- The per-record retention loop of the current variant's `main`, over the
whole resolved-record list. -/
def processBlobs (env : Env) (numDays oldest : Int) (dry : Bool)
    (removeFind : Option (String → String)) (reponame : String) :
    List blobinfo → List Effect
  | [] => []
  | b :: rest =>
    processBlob env numDays oldest dry removeFind reponame b ++
      processBlobs env numDays oldest dry removeFind reponame rest

/-- Body of the per-record loop of the early variant's `main` (main.go lines
505–518), for one record: with a non-negative threshold, old records are
deleted (or dry-printed); with a negative threshold every record is reported
with a `FOUND` line.  The early variant discards the delete call's error. -/
def processBlobV2 (numDays oldest : Int) (dry : Bool) (b : blobinfo) : List Effect :=
  if 0 ≤ numDays then
    if b.created < oldest then
      if dry then [Effect.printDryV2 b.repo b.tag b.digest b.created]
      else [Effect.printDelV2 b.repo b.tag b.digest b.created,
            Effect.deleteCall b.repo b.tag b.digest]
    else []
  else [Effect.printFound b.repo b.tag b.digest b.created]

/-- The early variant's per-record loop over the whole list. -/
def processBlobsV2 (numDays oldest : Int) (dry : Bool) : List blobinfo → List Effect
  | [] => []
  | b :: rest => processBlobV2 numDays oldest dry b ++ processBlobsV2 numDays oldest dry rest

/-- One repository iteration of the current variant's `main` (lines 255–291):
`getBlobInfos` followed by `checkErr` (which panics on a returned error) and
the per-record retention loop. -/
def runRepoV1 (env : Env) (keepFind removeFind : Option (String → String))
    (numDays oldest : Int) (dry : Bool) (reponame : String) : GoResult (List Effect) :=
  match getBlobInfos env keepFind reponame with
  | .err e => .panicked e
  | .panicked m => .panicked m
  | .ok (bis, acts) =>
    .ok (acts ++ processBlobs env numDays oldest dry removeFind reponame bis)

/-- Error result of one `reg.Repositories(ctx, reps, last)` call (main.go
line 57): nil, `io.EOF`, or some other error. -/
inductive PageEnd where
  | done
  | eof
  | fail (e : String)
deriving DecidableEq, Repr

/-- The inner `for _, r := range reps` loop of `getAllRepos` (main.go lines
58–63): append every non-empty slot to the accumulator and remember the last
non-empty name as the next cursor. -/
def appendPage (acc : List String) (last : String) : List String → List String × String
  | [] => (acc, last)
  | r :: rs => if r != "" then appendPage (acc ++ [r]) r rs else appendPage acc last rs

/-- The unbounded `for` loop of `getAllRepos` (main.go lines 55–70), with
explicit fuel: the Go loop has no bound of its own, so `none` models the
case where the registry never signals end-of-stream within `fuel` pages.
`cat last` is the oracle for `reg.Repositories`: the contents of the
10-element slice after the call together with the returned error.  A non-EOF
error panics (line 68); EOF breaks the loop after the page's entries were
already appended. -/
def getAllReposGo (cat : String → List String × PageEnd) :
    Nat → String → List String → Option (GoResult (List String))
  | 0, _, _ => none
  | fuel + 1, last, acc =>
    let page := cat last
    let step := appendPage acc last page.1
    match page.2 with
    | .done => getAllReposGo cat fuel step.2 step.1
    | .eof => some (.ok step.1)
    | .fail e => some (.panicked e)

/-- `getAllRepos` (main.go lines 52–72): start with an empty cursor and an
empty accumulator. -/
def getAllRepos (cat : String → List String × PageEnd) (fuel : Nat) :
    Option (GoResult (List String)) :=
  getAllReposGo cat fuel "" []

/-- Modelled from the spec: next page cursor, "a cursor equal to the last
name returned by the previous page request" — the last non-empty name of the
page, or the previous cursor when the page carried no names. -/
def nextCursor (last : String) (reps : List String) : String :=
  (reps.filter (fun s => s != "")).getLastD last

/-- Modelled from the spec: the Catalog Walker as §4.1 words it — per page,
the empty-string padding entries are filtered out, the survivors are
appended, and the next page is requested with `nextCursor`; the walk stops
exactly on the end-of-stream signal, and any other page error aborts the
run. -/
def catalogWalkerSpecGo (cat : String → List String × PageEnd) :
    Nat → String → List String → Option (GoResult (List String))
  | 0, _, _ => none
  | fuel + 1, last, acc =>
    let page := cat last
    let names := page.1.filter (fun s => s != "")
    match page.2 with
    | .done => catalogWalkerSpecGo cat fuel (nextCursor last page.1) (acc ++ names)
    | .eof => some (.ok (acc ++ names))
    | .fail e => some (.panicked e)

/-- The spec-side Catalog Walker from the start state. -/
def catalogWalkerSpec (cat : String → List String × PageEnd) (fuel : Nat) :
    Option (GoResult (List String)) :=
  catalogWalkerSpecGo cat fuel "" []

/-- Concrete environment: a payload that `json.Unmarshal` rejects. -/
def envC10 : Env where
  mGet := fun _ => .payload "this is not json"
  blobGet := fun _ => .error "no blob"
  decode := fun _ => none
  parseT := fun _ => .error "bad time"
  tagsAll := .ok []
  tagsGet := fun _ => .error "no tag"
  delete := fun _ => none

/-- Claim C10: when the manifest payload is not parseable as JSON at all,
`getCreated` does not report a malformed-payload error: the unmarshal error
is discarded, the document is empty, and the function returns the very same
"no config and history found" error as a well-formed manifest lacking both
`config` and `history`, so the caller cannot tell the two apart. -/
theorem C10_unparseable_payload_missing_metadata_error (env : Env) (dig pl : String)
    (hm : env.mGet dig = .payload pl) (hd : env.decode pl = none) :
    getCreated env dig = .err ("no config and history found for digest: " ++ dig) := by
  simp [getCreated, hm, hd, jlookup]

/-- Witness for C10 at a concrete unparseable payload. -/
theorem C10_witness :
    getCreated envC10 "sha256:abc" = .err "no config and history found for digest: sha256:abc" :=
  C10_unparseable_payload_missing_metadata_error envC10 "sha256:abc" "this is not json" rfl rfl

/-- Claim C2: for a schema-v2 manifest — a payload whose `config` field is an
object carrying a `digest` string — `getCreated` returns exactly the result
of parsing, in RFC 3339 nanosecond format (the `parseT` oracle), the
`created` field of the blob fetched under that digest. -/
theorem C2_schema2_created_from_config_blob (env : Env) (dig pl : String)
    (m cfg bm : List (String × JVal)) (ds bl cs : String)
    (hm : env.mGet dig = .payload pl)
    (hd : env.decode pl = some m)
    (hc : jlookup m "config" = .jobj cfg)
    (hds : jlookup cfg "digest" = .jstr ds)
    (hb : env.blobGet ds = .ok bl)
    (hbm : env.decode bl = some bm)
    (hcs : jlookup bm "created" = .jstr cs) :
    getCreated env dig = exceptToResult (env.parseT cs) := by
  simp [getCreated, hm, hd, hc, hds, hb, hbm, hcs]

/-- Concrete environment with a schema-v2 manifest and its config blob. -/
def envC2 : Env where
  mGet := fun _ => .payload "PL"
  blobGet := fun d => if d = "sha256:cfg" then .ok "BL" else .error "unknown blob"
  decode := fun s =>
    if s = "PL" then some [("config", JVal.jobj [("digest", JVal.jstr "sha256:cfg")])]
    else if s = "BL" then some [("created", JVal.jstr "2022-01-01T00:00:00.000000000Z")]
    else none
  parseT := fun s => if s = "2022-01-01T00:00:00.000000000Z" then .ok 1640995200 else .error "parse"
  tagsAll := .ok []
  tagsGet := fun _ => .error "no tag"
  delete := fun _ => none

/-- Witness for C2 at the concrete schema-v2 manifest. -/
theorem C2_witness : getCreated envC2 "sha256:m" = .ok 1640995200 :=
  C2_schema2_created_from_config_blob envC2 "sha256:m" "PL"
    [("config", JVal.jobj [("digest", JVal.jstr "sha256:cfg")])]
    [("digest", JVal.jstr "sha256:cfg")]
    [("created", JVal.jstr "2022-01-01T00:00:00.000000000Z")]
    "sha256:cfg" "BL" "2022-01-01T00:00:00.000000000Z"
    rfl rfl rfl rfl rfl rfl rfl

/-- Claim C3: for a schema-v1 manifest (no `config`, a non-empty `history`
array whose first entry is an object with a `v1Compatibility` string),
`getCreated` returns the result of parsing the `created` field of the JSON
document encoded in that string; and the result never depends on the later
history entries: two manifests agreeing on the first history entry (and both
lacking `config`) resolve identically, whatever their tails are. -/
theorem C3_schema1_first_history_entry (env : Env) :
    (∀ (dig pl : String) (m h : List (String × JVal)) (rest : List JVal) (vs cs : String),
      env.mGet dig = .payload pl →
      env.decode pl = some m →
      jlookup m "config" = .jnull →
      jlookup m "history" = .jarr (.jobj h :: rest) →
      jlookup h "v1Compatibility" = .jstr vs →
      jlookup ((env.decode vs).getD []) "created" = .jstr cs →
      getCreated env dig = exceptToResult (env.parseT cs))
  ∧ (∀ (dig₁ dig₂ pl₁ pl₂ : String) (m₁ m₂ : List (String × JVal)) (h : JVal)
      (rest₁ rest₂ : List JVal),
      env.mGet dig₁ = .payload pl₁ → env.mGet dig₂ = .payload pl₂ →
      env.decode pl₁ = some m₁ → env.decode pl₂ = some m₂ →
      jlookup m₁ "config" = .jnull → jlookup m₂ "config" = .jnull →
      jlookup m₁ "history" = .jarr (h :: rest₁) →
      jlookup m₂ "history" = .jarr (h :: rest₂) →
      getCreated env dig₁ = getCreated env dig₂) := by
  constructor
  · intro dig pl m h rest vs cs hm hd hc hh hv hcs
    simp [getCreated, hm, hd, hc, hh, hv, hcs]
  · intro dig₁ dig₂ pl₁ pl₂ m₁ m₂ h rest₁ rest₂ hm₁ hm₂ hd₁ hd₂ hc₁ hc₂ hh₁ hh₂
    simp [getCreated, hm₁, hm₂, hd₁, hd₂, hc₁, hc₂, hh₁, hh₂]

/-- Concrete environment with a schema-v1 manifest whose `v1Compatibility`
string decodes to a document with a `created` timestamp, plus a second
manifest sharing the first history entry but a different tail. -/
def envC3 : Env where
  mGet := fun d =>
    if d = "sha256:v1" then .payload "PL1"
    else if d = "sha256:v1b" then .payload "PL2"
    else .getErr "unknown manifest"
  blobGet := fun _ => .error "no blob"
  decode := fun s =>
    if s = "PL1" then
      some [("history", JVal.jarr [JVal.jobj [("v1Compatibility", JVal.jstr "V1C")]])]
    else if s = "PL2" then
      some [("history", JVal.jarr [JVal.jobj [("v1Compatibility", JVal.jstr "V1C")],
                                   JVal.jobj [("v1Compatibility", JVal.jstr "OTHER")]])]
    else if s = "V1C" then
      some [("created", JVal.jstr "2021-06-01T12:00:00.000000000Z")]
    else none
  parseT := fun s => if s = "2021-06-01T12:00:00.000000000Z" then .ok 1622548800 else .error "parse"
  tagsAll := .ok []
  tagsGet := fun _ => .error "no tag"
  delete := fun _ => none

/-- Witness for C3: the concrete schema-v1 manifest resolves to its first
history entry's timestamp, and the variant with an extra history entry
resolves identically. -/
theorem C3_witness :
    getCreated envC3 "sha256:v1" = .ok 1622548800
      ∧ getCreated envC3 "sha256:v1" = getCreated envC3 "sha256:v1b" :=
  ⟨(C3_schema1_first_history_entry envC3).1 "sha256:v1" "PL1"
      [("history", JVal.jarr [JVal.jobj [("v1Compatibility", JVal.jstr "V1C")]])]
      [("v1Compatibility", JVal.jstr "V1C")] []
      "V1C" "2021-06-01T12:00:00.000000000Z" rfl rfl rfl rfl rfl rfl,
   (C3_schema1_first_history_entry envC3).2 "sha256:v1" "sha256:v1b" "PL1" "PL2"
      [("history", JVal.jarr [JVal.jobj [("v1Compatibility", JVal.jstr "V1C")]])]
      [("history", JVal.jarr [JVal.jobj [("v1Compatibility", JVal.jstr "V1C")],
                              JVal.jobj [("v1Compatibility", JVal.jstr "OTHER")]])]
      (JVal.jobj [("v1Compatibility", JVal.jstr "V1C")]) []
      [JVal.jobj [("v1Compatibility", JVal.jstr "OTHER")]]
      rfl rfl rfl rfl rfl rfl rfl rfl⟩

/-- Concrete environment whose manifest payload carries a `history` value
that is a number, not an array. -/
def envC1bad : Env where
  mGet := fun _ => .payload "BAD"
  blobGet := fun _ => .error "no blob"
  decode := fun s => if s = "BAD" then some [("history", JVal.jnum 5)] else none
  parseT := fun _ => .error "parse"
  tagsAll := .ok []
  tagsGet := fun _ => .error "no tag"
  delete := fun _ => none

/-- Counterexample to claim C1 as stated: on a manifest whose `history`
value is not an array, `getCreated` does not return a typed error — the
unchecked type assertion `hist.([]interface{})` aborts the process with a
runtime panic. -/
theorem C1_counterexample_nonarray_history_aborts :
    getCreated envC1bad "sha256:m" = .panicked "interface conversion" := rfl

/-- Claim C1 (amended): `getCreated` returns a typed error to its caller —
and does not abort — for the failure modes the source checks: a failed
manifest fetch, a failed payload extraction, a payload that is unparseable
or lacks both `config` and `history`, a first history entry without a
`v1Compatibility` node, a failed config-blob fetch, and a timestamp whose
RFC 3339 parse fails on either schema path.  The remaining malformed shapes
(a non-array or empty `history`, a non-object history entry, a non-string
`v1Compatibility`, a non-object `config`, a missing or non-string `digest`
or `created`) go through unchecked type assertions and abort the process. -/
theorem C1_amended_typed_error_cases (env : Env) (dig : String) :
    (∀ e, env.mGet dig = .getErr e →
      getCreated env dig = .err ("cannot query manifest: " ++ e))
  ∧ (∀ e, env.mGet dig = .payloadErr e → getCreated env dig = .err e)
  ∧ (∀ pl, env.mGet dig = .payload pl → env.decode pl = none →
      getCreated env dig = .err ("no config and history found for digest: " ++ dig))
  ∧ (∀ pl m, env.mGet dig = .payload pl → env.decode pl = some m →
      jlookup m "config" = .jnull → jlookup m "history" = .jnull →
      getCreated env dig = .err ("no config and history found for digest: " ++ dig))
  ∧ (∀ pl m h rest, env.mGet dig = .payload pl → env.decode pl = some m →
      jlookup m "config" = .jnull → jlookup m "history" = .jarr (.jobj h :: rest) →
      jlookup h "v1Compatibility" = .jnull →
      getCreated env dig = .err "no v1Compatibility node in history object")
  ∧ (∀ pl m h rest vs cs e, env.mGet dig = .payload pl → env.decode pl = some m →
      jlookup m "config" = .jnull → jlookup m "history" = .jarr (.jobj h :: rest) →
      jlookup h "v1Compatibility" = .jstr vs →
      jlookup ((env.decode vs).getD []) "created" = .jstr cs →
      env.parseT cs = .error e →
      getCreated env dig = .err e)
  ∧ (∀ pl m cfg ds e, env.mGet dig = .payload pl → env.decode pl = some m →
      jlookup m "config" = .jobj cfg → jlookup cfg "digest" = .jstr ds →
      env.blobGet ds = .error e →
      getCreated env dig = .err e)
  ∧ (∀ pl m cfg ds bl bm cs e, env.mGet dig = .payload pl → env.decode pl = some m →
      jlookup m "config" = .jobj cfg → jlookup cfg "digest" = .jstr ds →
      env.blobGet ds = .ok bl → env.decode bl = some bm →
      jlookup bm "created" = .jstr cs → env.parseT cs = .error e →
      getCreated env dig = .err e) := by
  refine ⟨?_, ?_, ?_, ?_, ?_, ?_, ?_, ?_⟩
  · intro e hm; simp [getCreated, hm]
  · intro e hm; simp [getCreated, hm]
  · intro pl hm hd; simp [getCreated, hm, hd, jlookup]
  · intro pl m hm hd hc hh; simp [getCreated, hm, hd, hc, hh]
  · intro pl m h rest hm hd hc hh hv; simp [getCreated, hm, hd, hc, hh, hv]
  · intro pl m h rest vs cs e hm hd hc hh hv hcs hp
    simp [getCreated, hm, hd, hc, hh, hv, hcs, hp, exceptToResult]
  · intro pl m cfg ds e hm hd hc hds hb; simp [getCreated, hm, hd, hc, hds, hb]
  · intro pl m cfg ds bl bm cs e hm hd hc hds hb hbm hcs hp
    simp [getCreated, hm, hd, hc, hds, hb, hbm, hcs, hp, exceptToResult]

/-- Concrete environment whose manifest fetch fails outright. -/
def envC1w : Env where
  mGet := fun _ => .getErr "connection refused"
  blobGet := fun _ => .error "no blob"
  decode := fun _ => none
  parseT := fun _ => .error "parse"
  tagsAll := .ok []
  tagsGet := fun _ => .error "no tag"
  delete := fun _ => none

/-- Witness for the amended C1 at a concrete failed manifest fetch. -/
theorem C1_amended_witness :
    getCreated envC1w "sha256:m" = .err "cannot query manifest: connection refused" :=
  (C1_amended_typed_error_cases envC1w "sha256:m").1 "connection refused" rfl

/-- Inversion for `GoResult.mapOk`: a success comes from a success. -/
lemma GoResult.mapOk_eq_ok {α β : Type} {f : α → β} {r : GoResult α} {x : β}
    (h : GoResult.mapOk f r = .ok x) : ∃ a, r = .ok a ∧ x = f a := by
  cases r with
  | ok a =>
    simp [GoResult.mapOk] at h
    exact ⟨a, rfl, h.symm⟩
  | err e => simp [GoResult.mapOk] at h
  | panicked m => simp [GoResult.mapOk] at h

/-- With the dry flag set, one record's pass never emits a delete call. -/
lemma processBlob_dry_no_deleteCall (env : Env) (numDays oldest : Int)
    (removeFind : Option (String → String)) (reponame : String) (b : blobinfo)
    (rp tg dg : String) :
    Effect.deleteCall rp tg dg ∉ processBlob env numDays oldest true removeFind reponame b := by
  cases h2 : removeMisses removeFind (b.repo ++ ":" ++ b.tag) <;>
    by_cases h0 : (0 : Int) ≤ numDays <;>
      by_cases h1 : b.created < oldest <;>
        simp [processBlob, h0, h1, h2]

/-- With the dry flag set, a record that qualifies for deletion produces
exactly the matched-for-deletion log line and the DRY DELETE log line. -/
lemma processBlob_dry_logs (env : Env) (numDays oldest : Int)
    (removeFind : Option (String → String)) (reponame : String) (b : blobinfo)
    (h0 : 0 ≤ numDays) (h1 : b.created < oldest)
    (h2 : removeMisses removeFind (b.repo ++ ":" ++ b.tag) = false) :
    processBlob env numDays oldest true removeFind reponame b =
      [Effect.logMatched (b.repo ++ ":" ++ b.tag) b.created,
       Effect.logDry reponame b.digest] := by
  simp [processBlob, h0, h1, h2]

/-- The retention loop processes a concatenation piecewise. -/
lemma processBlobs_append (env : Env) (numDays oldest : Int) (dry : Bool)
    (removeFind : Option (String → String)) (reponame : String) :
    ∀ l₁ l₂ : List blobinfo,
      processBlobs env numDays oldest dry removeFind reponame (l₁ ++ l₂) =
        processBlobs env numDays oldest dry removeFind reponame l₁ ++
          processBlobs env numDays oldest dry removeFind reponame l₂ := by
  intro l₁ l₂
  induction l₁ with
  | nil => simp [processBlobs]
  | cons b rest ih => simp [processBlobs, ih]

/-- Concrete environment for the tag whose manifest lacks both `config` and
`history`. -/
def envC4 : Env where
  mGet := fun d => if d = "sha256:m" then .payload "PL" else .getErr "unknown manifest"
  blobGet := fun _ => .error "no blob"
  decode := fun s => if s = "PL" then some [("layers", JVal.jarr [])] else none
  parseT := fun _ => .error "parse"
  tagsAll := .ok ["v1", "v2"]
  tagsGet := fun t => if t = "v1" then .ok ⟨"sha256:m", "mt"⟩ else .error "no descriptor"
  delete := fun _ => none

/-- Claim C4: a manifest with neither `config` nor `history` makes
`getCreated` return the missing-metadata error, and the per-tag loop logs
the failure, records nothing for that tag, and continues with the remaining
tags of the same repository — the error never escapes the loop. -/
theorem C4_missing_metadata_skips_tag (env : Env) (keepFind : Option (String → String))
    (reponame t pl : String) (tg : Descriptor) (m : List (String × JVal))
    (htag : env.tagsGet t = .ok tg)
    (hkeep : keepMatches keepFind (reponame ++ ":" ++ t) = false)
    (hm : env.mGet tg.digest = .payload pl)
    (hd : env.decode pl = some m)
    (hc : jlookup m "config" = .jnull)
    (hh : jlookup m "history" = .jnull) :
    getCreated env tg.digest = .err ("no config and history found for digest: " ++ tg.digest)
  ∧ ∀ rest, processTags env keepFind reponame (t :: rest) =
      GoResult.mapOk
        (fun p => (p.1, Effect.logProcessingTag reponame t ::
          Effect.logCreatedErr reponame t
            ("no config and history found for digest: " ++ tg.digest) :: p.2))
        (processTags env keepFind reponame rest) := by
  have hgc : getCreated env tg.digest =
      .err ("no config and history found for digest: " ++ tg.digest) := by
    simp [getCreated, hm, hd, hc, hh]
  refine ⟨hgc, fun rest => ?_⟩
  simp [processTags, htag, hkeep, hgc]

/-- Witness for C4: the tag `v1` of `myapp` has such a manifest; its
resolution fails with the missing-metadata error and the loop goes on to
`v2`. -/
theorem C4_witness :
    getCreated envC4 "sha256:m" = .err "no config and history found for digest: sha256:m"
  ∧ processTags envC4 none "myapp" ["v1", "v2"] =
      GoResult.mapOk
        (fun p => (p.1, Effect.logProcessingTag "myapp" "v1" ::
          Effect.logCreatedErr "myapp" "v1"
            "no config and history found for digest: sha256:m" :: p.2))
        (processTags envC4 none "myapp" ["v2"]) :=
  have h := C4_missing_metadata_skips_tag envC4 none "myapp" "v1" "PL"
    ⟨"sha256:m", "mt"⟩ [("layers", JVal.jarr [])] rfl rfl rfl rfl rfl rfl
  ⟨h.1, h.2 ["v2"]⟩

/-- Claim C5: with the dry-run flag set, the retention loop issues no
delete-by-digest call whatever the record list is, and every record that
qualifies for deletion is logged both with its creation time (the
matched-for-deletion line) and with its digest (the DRY DELETE line). -/
theorem C5_dry_run_no_delete (env : Env) (numDays oldest : Int)
    (removeFind : Option (String → String)) (reponame : String) (bis : List blobinfo) :
    (∀ rp tg dg, Effect.deleteCall rp tg dg ∉
        processBlobs env numDays oldest true removeFind reponame bis)
  ∧ (∀ b ∈ bis, 0 ≤ numDays → b.created < oldest →
      removeMisses removeFind (b.repo ++ ":" ++ b.tag) = false →
      Effect.logMatched (b.repo ++ ":" ++ b.tag) b.created ∈
          processBlobs env numDays oldest true removeFind reponame bis
        ∧ Effect.logDry reponame b.digest ∈
          processBlobs env numDays oldest true removeFind reponame bis) := by
  constructor
  · intro rp tg dg
    induction bis with
    | nil => simp [processBlobs]
    | cons b rest ih =>
      simp only [processBlobs, List.mem_append, not_or]
      exact ⟨processBlob_dry_no_deleteCall env numDays oldest removeFind reponame b rp tg dg, ih⟩
  · intro b hb h0 h1 h2
    obtain ⟨l₁, l₂, rfl⟩ := List.append_of_mem hb
    rw [processBlobs_append]
    have hev := processBlob_dry_logs env numDays oldest removeFind reponame b h0 h1 h2
    constructor
    · apply List.mem_append_right
      simp [processBlobs, hev]
    · apply List.mem_append_right
      simp [processBlobs, hev]

/-- Concrete environment and record list for the dry-run claim. -/
def envC5 : Env where
  mGet := fun _ => .getErr "unused"
  blobGet := fun _ => .error "unused"
  decode := fun _ => none
  parseT := fun _ => .error "unused"
  tagsAll := .ok []
  tagsGet := fun _ => .error "unused"
  delete := fun _ => some "delete must never be called in dry-run"

/-- Witness for C5 at one qualifying record. -/
theorem C5_witness :
    Effect.deleteCall "myapp" "v1" "sha256:d" ∉
        processBlobs envC5 30 200 true none "myapp" [⟨"myapp", "v1", "sha256:d", 100⟩]
  ∧ (Effect.logMatched "myapp:v1" 100 ∈
        processBlobs envC5 30 200 true none "myapp" [⟨"myapp", "v1", "sha256:d", 100⟩]
      ∧ Effect.logDry "myapp" "sha256:d" ∈
        processBlobs envC5 30 200 true none "myapp" [⟨"myapp", "v1", "sha256:d", 100⟩]) :=
  ⟨(C5_dry_run_no_delete envC5 30 200 none "myapp" [⟨"myapp", "v1", "sha256:d", 100⟩]).1
      "myapp" "v1" "sha256:d",
   (C5_dry_run_no_delete envC5 30 200 none "myapp" [⟨"myapp", "v1", "sha256:d", 100⟩]).2
      ⟨"myapp", "v1", "sha256:d", 100⟩ (by simp) (by decide) (by decide) rfl⟩

/-- Claim C9: with dry-run off, a record selected for deletion whose
delete-by-digest call fails produces the matched log line, the delete call,
and the logged delete error — and the loop goes on: the records before and
after it are processed exactly as they would be on their own, so a failed
deletion never terminates the run and never prevents later deletions. -/
theorem C9_delete_failure_continues (env : Env) (numDays oldest : Int)
    (removeFind : Option (String → String)) (reponame : String)
    (b : blobinfo) (e : String) (l₁ l₂ : List blobinfo)
    (h0 : 0 ≤ numDays) (h1 : b.created < oldest)
    (h2 : removeMisses removeFind (b.repo ++ ":" ++ b.tag) = false)
    (hfail : env.delete b.digest = some e) :
    processBlobs env numDays oldest false removeFind reponame (l₁ ++ b :: l₂) =
      processBlobs env numDays oldest false removeFind reponame l₁ ++
        [Effect.logMatched (b.repo ++ ":" ++ b.tag) b.created,
         Effect.deleteCall b.repo b.tag b.digest,
         Effect.logDeleteErr b.digest e] ++
        processBlobs env numDays oldest false removeFind reponame l₂ := by
  rw [processBlobs_append]
  have hev : processBlob env numDays oldest false removeFind reponame b =
      [Effect.logMatched (b.repo ++ ":" ++ b.tag) b.created,
       Effect.deleteCall b.repo b.tag b.digest,
       Effect.logDeleteErr b.digest e] := by
    simp [processBlob, h0, h1, h2, hfail]
  simp [processBlobs, hev]

/-- Concrete environment whose delete call fails on the middle record. -/
def envC9 : Env where
  mGet := fun _ => .getErr "unused"
  blobGet := fun _ => .error "unused"
  decode := fun _ => none
  parseT := fun _ => .error "unused"
  tagsAll := .ok []
  tagsGet := fun _ => .error "unused"
  delete := fun d => if d = "sha256:bad" then some "backend refused" else none

/-- Witness for C9: the record after the failed deletion is still deleted. -/
theorem C9_witness :
    processBlobs envC9 30 200 false none "myapp"
        [⟨"myapp", "v0", "sha256:ok0", 50⟩, ⟨"myapp", "v1", "sha256:bad", 100⟩,
         ⟨"myapp", "v2", "sha256:ok2", 150⟩] =
      processBlobs envC9 30 200 false none "myapp" [⟨"myapp", "v0", "sha256:ok0", 50⟩] ++
        [Effect.logMatched "myapp:v1" 100,
         Effect.deleteCall "myapp" "v1" "sha256:bad",
         Effect.logDeleteErr "sha256:bad" "backend refused"] ++
        processBlobs envC9 30 200 false none "myapp" [⟨"myapp", "v2", "sha256:ok2", 150⟩] :=
  C9_delete_failure_continues envC9 30 200 none "myapp"
    ⟨"myapp", "v1", "sha256:bad", 100⟩ "backend refused"
    [⟨"myapp", "v0", "sha256:ok0", 50⟩] [⟨"myapp", "v2", "sha256:ok2", 150⟩]
    (by decide) (by decide) rfl rfl

/-- Environment for the report-only evaluation (its delete oracle would
record any call as an error message, but no call is made). -/
def envC6 : Env where
  mGet := fun _ => .getErr "unused"
  blobGet := fun _ => .error "unused"
  decode := fun _ => none
  parseT := fun _ => .error "unused"
  tagsAll := .ok []
  tagsGet := fun _ => .error "unused"
  delete := fun _ => none

/-- The record of the spec's report-only scenario. -/
def recC6 : blobinfo := ⟨"myapp", "v1", "sha256:d", 1640995200⟩

/-- Claim C6 evaluated on the code (report-only mode, threshold −1): the
current variant's retention loop emits nothing at all for a resolved record
— in particular it never issues a delete call, but it also never logs the
record's digest or creation time — while the early variant's loop emits the
FOUND report line carrying identity, digest and creation time, and likewise
issues no delete call. -/
theorem C6_report_mode_code_evaluation :
    processBlobs envC6 (-1) 99999999999 false none "myapp" [recC6] = []
  ∧ processBlobsV2 (-1) 99999999999 false [recC6] =
      [Effect.printFound "myapp" "v1" "sha256:d" 1640995200] :=
  ⟨rfl, rfl⟩

/-- Inversion of the per-tag loop: every record it produces belongs to this
repository and comes from a tag the keep pattern did not match, and its log
effects never include a delete call. -/
lemma processTags_inv (env : Env) (keepFind : Option (String → String)) (reponame : String) :
    ∀ (tags : List String) (bis : List blobinfo) (acts : List Effect),
      processTags env keepFind reponame tags = .ok (bis, acts) →
      (∀ b ∈ bis, b.repo = reponame ∧ keepMatches keepFind (reponame ++ ":" ++ b.tag) = false)
      ∧ (∀ rp tg dg, Effect.deleteCall rp tg dg ∉ acts) := by
  intro tags
  induction tags with
  | nil =>
    intro bis acts h
    simp [processTags] at h
    obtain ⟨rfl, rfl⟩ := h
    exact ⟨fun b hb => absurd hb (List.not_mem_nil b), fun rp tg dg => List.not_mem_nil _⟩
  | cons t rest ih =>
    intro bis acts h
    simp only [processTags] at h
    cases htg : env.tagsGet t with
    | error e =>
      rw [htg] at h
      dsimp only at h
      obtain ⟨⟨pbis, pacts⟩, hp, hx⟩ := GoResult.mapOk_eq_ok h
      simp at hx
      obtain ⟨rfl, rfl⟩ := hx
      obtain ⟨ihr, iha⟩ := ih _ _ hp
      exact ⟨ihr, fun rp tg dg => by simp [iha rp tg dg]⟩
    | ok tg =>
      rw [htg] at h
      dsimp only at h
      by_cases hk : keepMatches keepFind (reponame ++ ":" ++ t) = true
      · rw [if_pos hk] at h
        obtain ⟨⟨pbis, pacts⟩, hp, hx⟩ := GoResult.mapOk_eq_ok h
        simp at hx
        obtain ⟨rfl, rfl⟩ := hx
        obtain ⟨ihr, iha⟩ := ih _ _ hp
        exact ⟨ihr, fun rp tg' dg => by simp [iha rp tg' dg]⟩
      · rw [if_neg hk] at h
        simp only [Bool.not_eq_true] at hk
        cases hgc : getCreated env tg.digest with
        | panicked m => rw [hgc] at h; cases h
        | err e =>
          rw [hgc] at h
          obtain ⟨⟨pbis, pacts⟩, hp, hx⟩ := GoResult.mapOk_eq_ok h
          simp at hx
          obtain ⟨rfl, rfl⟩ := hx
          obtain ⟨ihr, iha⟩ := ih _ _ hp
          exact ⟨ihr, fun rp tg' dg => by simp [iha rp tg' dg]⟩
        | ok tm =>
          rw [hgc] at h
          obtain ⟨⟨pbis, pacts⟩, hp, hx⟩ := GoResult.mapOk_eq_ok h
          simp at hx
          obtain ⟨rfl, rfl⟩ := hx
          obtain ⟨ihr, iha⟩ := ih _ _ hp
          refine ⟨?_, fun rp tg' dg => by simp [iha rp tg' dg]⟩
          intro b hb
          rcases List.mem_cons.mp hb with rfl | hb'
          · exact ⟨rfl, hk⟩
          · exact ihr b hb'

/-- Inversion of `getBlobInfos`: a success means the tag listing succeeded
and the per-tag loop produced the result. -/
lemma getBlobInfos_ok (env : Env) (keepFind : Option (String → String))
    (reponame : String) (p : List blobinfo × List Effect)
    (h : getBlobInfos env keepFind reponame = .ok p) :
    ∃ tags, env.tagsAll = .ok tags ∧ processTags env keepFind reponame tags = .ok p := by
  unfold getBlobInfos at h
  cases hta : env.tagsAll with
  | error e => rw [hta] at h; cases h
  | ok tags => rw [hta] at h; exact ⟨tags, rfl, h⟩

/-- Inversion of the retention loop: every delete call it emits originates
in one of the records it was given. -/
lemma processBlobs_deleteCall_inv (env : Env) (numDays oldest : Int) (dry : Bool)
    (removeFind : Option (String → String)) (reponame : String) :
    ∀ (bis : List blobinfo) (rp tg dg : String),
      Effect.deleteCall rp tg dg ∈ processBlobs env numDays oldest dry removeFind reponame bis →
      ∃ b ∈ bis, rp = b.repo ∧ tg = b.tag ∧ dg = b.digest := by
  intro bis
  induction bis with
  | nil => intro rp tg dg h; simp [processBlobs] at h
  | cons b rest ih =>
    intro rp tg dg h
    simp only [processBlobs] at h
    rcases List.mem_append.mp h with h | h
    · refine ⟨b, List.mem_cons_self b rest, ?_⟩
      cases h2 : removeMisses removeFind (b.repo ++ ":" ++ b.tag) <;>
        by_cases h0 : (0 : Int) ≤ numDays <;>
          by_cases h1 : b.created < oldest <;>
            cases hdry : dry <;>
              cases hdel : env.delete b.digest <;>
                simp [processBlob, h0, h1, h2, hdry, hdel] at h <;>
                  exact h
    · obtain ⟨b', hb', he⟩ := ih rp tg dg h
      exact ⟨b', List.mem_cons_of_mem b hb', he⟩

/-- Claim C7: a tag whose qualified name `repo:tag` is matched by the
configured keep pattern is never the origin of a delete call in the whole
repository pass, however old it is and whatever the remove pattern says:
the per-tag loop skips it before a record is ever built. -/
theorem C7_keep_pattern_never_deleted (env : Env) (f : String → String)
    (removeFind : Option (String → String)) (numDays oldest : Int) (dry : Bool)
    (reponame t : String) (acts : List Effect) (rp dg : String)
    (hmatch : f (reponame ++ ":" ++ t) ≠ "")
    (hrun : runRepoV1 env (some f) removeFind numDays oldest dry reponame = .ok acts) :
    Effect.deleteCall rp t dg ∉ acts := by
  intro hmem
  unfold runRepoV1 at hrun
  cases hgb : getBlobInfos env (some f) reponame with
  | err e => rw [hgb] at hrun; cases hrun
  | panicked m => rw [hgb] at hrun; cases hrun
  | ok p =>
    obtain ⟨bis, la⟩ := p
    rw [hgb] at hrun
    simp only [GoResult.ok.injEq] at hrun
    rw [← hrun] at hmem
    obtain ⟨tags, hta, hpt⟩ := getBlobInfos_ok env (some f) reponame (bis, la) hgb
    obtain ⟨hrec, hnodel⟩ := processTags_inv env (some f) reponame tags bis la hpt
    rcases List.mem_append.mp hmem with hmem | hmem
    · exact hnodel rp t dg hmem
    · obtain ⟨b, hb, hrp, htg, hdg⟩ :=
        processBlobs_deleteCall_inv env numDays oldest dry removeFind reponame bis rp t dg hmem
      obtain ⟨hbrepo, hbkeep⟩ := hrec b hb
      rw [← htg] at hbkeep
      simp [keepMatches] at hbkeep
      exact hmatch hbkeep

/-- Concrete keep pattern matching exactly `myapp:v1` (as
`FindString`, returning the matched text). -/
def fC7 : String → String := fun s => if s = "myapp:v1" then s else ""

/-- Concrete environment for the keep-pattern claim: one tag, old enough to
qualify for deletion, but kept. -/
def envC7 : Env where
  mGet := fun _ => .getErr "must not be fetched"
  blobGet := fun _ => .error "unused"
  decode := fun _ => none
  parseT := fun _ => .error "unused"
  tagsAll := .ok ["v1"]
  tagsGet := fun t => if t = "v1" then .ok ⟨"sha256:d", "mt"⟩ else .error "no descriptor"
  delete := fun _ => none

/-- Witness for C7: the kept tag's pass emits only the keep log lines, and
no delete call for the tag appears. -/
theorem C7_witness :
    Effect.deleteCall "myapp" "v1" "sha256:d" ∉
      [Effect.logProcessingTag "myapp" "v1", Effect.logKeep "myapp" "v1"] :=
  C7_keep_pattern_never_deleted envC7 fC7 none 30 99999999999 false "myapp" "v1"
    [Effect.logProcessingTag "myapp" "v1", Effect.logKeep "myapp" "v1"]
    "myapp" "sha256:d" (by decide) rfl

/-- The element-wise page append of `getAllRepos` equals filtering out the
empty padding slots and taking the last surviving name as the new cursor. -/
lemma appendPage_eq : ∀ (reps acc : List String) (last : String),
    appendPage acc last reps = (acc ++ reps.filter (fun s => s != ""), nextCursor last reps) := by
  intro reps
  induction reps with
  | nil => intro acc last; simp [appendPage, nextCursor]
  | cons r rs ih =>
    intro acc last
    by_cases hr : r = ""
    · subst hr
      simp [appendPage, nextCursor, ih]
    · have hr' : (r != "") = true := by simp [hr]
      have h1 : appendPage acc last (r :: rs) = appendPage (acc ++ [r]) r rs := by
        simp [appendPage, hr']
      have h2 : List.filter (fun s => s != "") (r :: rs)
          = r :: List.filter (fun s => s != "") rs := by
        simp [List.filter_cons, hr']
      rw [h1, ih]
      simp only [nextCursor]
      rw [h2, List.getLastD_cons, List.append_assoc]
      rfl

/-- The Go catalog loop is extensionally the spec-side Catalog Walker. -/
lemma getAllReposGo_eq_spec (cat : String → List String × PageEnd) :
    ∀ (fuel : Nat) (last : String) (acc : List String),
      getAllReposGo cat fuel last acc = catalogWalkerSpecGo cat fuel last acc := by
  intro fuel
  induction fuel with
  | zero => intro last acc; rfl
  | succ n ih =>
    intro last acc
    simp only [getAllReposGo, catalogWalkerSpecGo, appendPage_eq]
    cases hp : (cat last).2 <;> simp [hp, ih, nextCursor]

/-- The spec-side walk never lets an empty name into the result. -/
lemma catalogWalkerSpecGo_no_empty (cat : String → List String × PageEnd) :
    ∀ (fuel : Nat) (last : String) (acc l : List String), "" ∉ acc →
      catalogWalkerSpecGo cat fuel last acc = some (.ok l) → "" ∉ l := by
  intro fuel
  induction fuel with
  | zero => intro last acc l _ h; cases h
  | succ n ih =>
    intro last acc l hacc h
    simp only [catalogWalkerSpecGo] at h
    have hstep : "" ∉ acc ++ (cat last).1.filter (fun s => s != "") := by
      intro hmem
      rcases List.mem_append.mp hmem with hm | hm
      · exact hacc hm
      · have := List.of_mem_filter hm
        simp at this
    cases hp : (cat last).2 with
    | done => rw [hp] at h; exact ih _ _ l hstep h
    | eof =>
      rw [hp] at h
      simp only [Option.some.injEq, GoResult.ok.injEq] at h
      rw [← h]
      exact hstep
    | fail e => rw [hp] at h; simp at h

/-- Walking down a strictly increasing chain, every element stays below the
chain's last element (with the start as default). -/
lemma le_getLastD_of_chain : ∀ (c : String) (l : List String),
    List.Chain (fun a b : String => a < b) c l →
    c ≤ l.getLastD c ∧ ∀ x ∈ l, x ≤ l.getLastD c := by
  intro c l
  induction l generalizing c with
  | nil => intro _; exact ⟨le_refl c, fun x hx => absurd hx (List.not_mem_nil x)⟩
  | cons a t ih =>
    intro h
    rcases List.chain_cons.mp h with ⟨hca, hat⟩
    obtain ⟨h1, h2⟩ := ih a hat
    rw [List.getLastD_cons]
    refine ⟨le_of_lt (lt_of_lt_of_le hca h1), ?_⟩
    intro x hx
    rcases List.mem_cons.mp hx with rfl | hx'
    · exact h1
    · exact h2 x hx'

/-- When every page's surviving names ascend strictly from its cursor, the
accumulated catalog stays strictly increasing. -/
lemma catalogWalkerSpecGo_chain (cat : String → List String × PageEnd)
    (hcat : ∀ c, List.Chain (fun a b : String => a < b) c
      ((cat c).1.filter (fun s => s != ""))) :
    ∀ (fuel : Nat) (last : String) (acc l : List String),
      List.Chain' (fun a b : String => a < b) acc → (∀ x ∈ acc, x ≤ last) →
      catalogWalkerSpecGo cat fuel last acc = some (.ok l) →
      List.Chain' (fun a b : String => a < b) l := by
  intro fuel
  induction fuel with
  | zero => intro last acc l _ _ h; cases h
  | succ n ih =>
    intro last acc l hacc hle h
    simp only [catalogWalkerSpecGo] at h
    have hch := hcat last
    have hpw : List.Pairwise (fun a b : String => a < b)
        (last :: (cat last).1.filter (fun s => s != "")) :=
      List.chain_iff_pairwise.mp hch
    have hlt : ∀ y ∈ (cat last).1.filter (fun s => s != ""), last < y :=
      (List.pairwise_cons.mp hpw).1
    have hnames_chain : List.Chain' (fun a b : String => a < b)
        ((cat last).1.filter (fun s => s != "")) :=
      ((List.pairwise_cons.mp hpw).2).chain'
    have happ : List.Chain' (fun a b : String => a < b)
        (acc ++ (cat last).1.filter (fun s => s != "")) := by
      rw [List.chain'_append]
      refine ⟨hacc, hnames_chain, ?_⟩
      intro x hx y hy
      exact lt_of_le_of_lt (hle x (List.mem_of_mem_getLast? hx))
        (hlt y (List.mem_of_mem_head? hy))
    have hbound : ∀ x ∈ acc ++ (cat last).1.filter (fun s => s != ""),
        x ≤ ((cat last).1.filter (fun s => s != "")).getLastD last := by
      obtain ⟨hg1, hg2⟩ := le_getLastD_of_chain last _ hch
      intro x hx
      rcases List.mem_append.mp hx with hm | hm
      · exact le_trans (hle x hm) hg1
      · exact hg2 x hm
    cases hp : (cat last).2 with
    | done =>
      rw [hp] at h
      refine ih (nextCursor last (cat last).1) _ l happ ?_ h
      simp only [nextCursor]
      exact hbound
    | eof =>
      rw [hp] at h
      simp only [Option.some.injEq, GoResult.ok.injEq] at h
      rw [← h]
      exact happ
    | fail e => rw [hp] at h; simp at h

/-- A page error other than end-of-stream aborts the walk at once. -/
lemma getAllReposGo_fail_aborts (cat : String → List String × PageEnd)
    (fuel : Nat) (last : String) (acc : List String) (e : String)
    (hfail : (cat last).2 = .fail e) :
    getAllReposGo cat (fuel + 1) last acc = some (.panicked e) := by
  simp [getAllReposGo, hfail]

/-- Without an end-of-stream signal the walk never terminates on its own. -/
lemma getAllReposGo_no_eof_diverges (cat : String → List String × PageEnd)
    (hdone : ∀ c, (cat c).2 = .done) :
    ∀ (fuel : Nat) (last : String) (acc : List String),
      getAllReposGo cat fuel last acc = none := by
  intro fuel
  induction fuel with
  | zero => intro last acc; rfl
  | succ n ih => intro last acc; simp [getAllReposGo, hdone last, ih]

/-- Claim C8: the catalog walker's result contains no empty-string entries;
it is exactly the spec-side walk that filters each page's padding and
requests the next page with a cursor equal to the last name returned; under
the registry contract that every page's names strictly ascend from its
cursor, the result has no duplicates; a non-end-of-stream page error aborts
the run at once; and without an end-of-stream signal the walk never
terminates — it stops exactly on end-of-stream. -/
theorem C8_catalog_walker (cat : String → List String × PageEnd) :
    (∀ fuel l, getAllRepos cat fuel = some (.ok l) → "" ∉ l)
  ∧ (∀ fuel, getAllRepos cat fuel = catalogWalkerSpec cat fuel)
  ∧ ((∀ c, List.Chain (fun a b : String => a < b) c
        ((cat c).1.filter (fun s => s != ""))) →
      ∀ fuel l, getAllRepos cat fuel = some (.ok l) → l.Nodup)
  ∧ (∀ fuel last acc e, (cat last).2 = .fail e →
      getAllReposGo cat (fuel + 1) last acc = some (.panicked e))
  ∧ ((∀ c, (cat c).2 = .done) → ∀ fuel, getAllRepos cat fuel = none) := by
  refine ⟨?_, ?_, ?_, ?_, ?_⟩
  · intro fuel l h
    rw [getAllRepos, getAllReposGo_eq_spec] at h
    exact catalogWalkerSpecGo_no_empty cat fuel "" [] l (List.not_mem_nil "") h
  · intro fuel
    rw [getAllRepos, catalogWalkerSpec, getAllReposGo_eq_spec]
  · intro hcat fuel l h
    rw [getAllRepos, getAllReposGo_eq_spec] at h
    have hch := catalogWalkerSpecGo_chain cat hcat fuel "" [] l List.chain'_nil
      (fun x hx => absurd hx (List.not_mem_nil x)) h
    exact (List.chain'_iff_pairwise.mp hch).imp (fun hab => ne_of_lt hab)
  · exact fun fuel last acc e hfail => getAllReposGo_fail_aborts cat fuel last acc e hfail
  · intro hdone fuel
    exact getAllReposGo_no_eof_diverges cat hdone fuel "" []

/-- Concrete registry: two catalog pages with empty-slot padding, plus a
cursor at which the registry fails. -/
def catW : String → List String × PageEnd := fun c =>
  if c = "" then (["a", "b", "", ""], .done)
  else if c = "b" then (["c", ""], .eof)
  else if c = "z" then ([], .fail "boom")
  else ([], .eof)

/-- Concrete registry that never signals end-of-stream. -/
def catDone : String → List String × PageEnd := fun _ => (["x"], .done)

/-- Witness for C8 at the concrete registries. -/
theorem C8_witness :
    ("" ∉ (["a", "b", "c"] : List String))
  ∧ getAllRepos catW 2 = catalogWalkerSpec catW 2
  ∧ (["a", "b", "c"] : List String).Nodup
  ∧ getAllReposGo catW 1 "z" [] = some (.panicked "boom")
  ∧ getAllRepos catDone 5 = none := by
  have hsorted : ∀ c, List.Chain (fun a b : String => a < b) c
      ((catW c).1.filter (fun s => s != "")) := by
    intro c
    by_cases h1 : c = ""
    · subst h1
      exact List.Chain.cons (String.lt_iff_toList_lt.mpr (by decide))
        (List.Chain.cons (String.lt_iff_toList_lt.mpr (by decide)) List.Chain.nil)
    · by_cases h2 : c = "b"
      · subst h2
        exact List.Chain.cons (String.lt_iff_toList_lt.mpr (by decide)) List.Chain.nil
      · by_cases h3 : c = "z"
        · subst h3
          exact List.Chain.nil
        · simp only [catW, if_neg h1, if_neg h2, if_neg h3]
          exact List.Chain.nil
  exact ⟨(C8_catalog_walker catW).1 2 ["a", "b", "c"] rfl,
    (C8_catalog_walker catW).2.1 2,
    (C8_catalog_walker catW).2.2.1 hsorted 2 ["a", "b", "c"] rfl,
    (C8_catalog_walker catW).2.2.2.1 0 "z" [] "boom" rfl,
    (C8_catalog_walker catDone).2.2.2.2 (fun _ => rfl) 5⟩
